import Mathlib

/-!
Verification of the ai-legal repository's two specified cores:
the LLM response contract with its lenient recovery parser (`llm.py`)
and the best-effort geocode/search/dedupe pipeline (`nearby.py`),
plus the translation helper (`utils.py`).

Python strings are modelled as `List Char` (`PyStr`); Python's `json`
module is modelled by an executable JSON value type with a fuel-based
recursive-descent reader (`jsonLoads`, mirroring `json.loads` on the JSON
grammar) and a writer (`jsonDumps`, mirroring `json.dumps` with its default
ASCII escaping).  External collaborators (the generative-model SDK, the
geocoding service, the distance library, the translation service) are
passed in as explicit oracle functions, as the specification treats them
as external black boxes.
-/

/-- Python `str` modelled as a list of characters. -/
abbrev PyStr := List Char

/-- Build a `PyStr` from a Lean string literal. -/
def pystr (s : String) : PyStr := s.toList

/-- Python string truthiness: the empty string is falsy. -/
def pyTruthy (s : PyStr) : Bool := !s.isEmpty

/-- The whitespace set of Python's `str.strip()`. -/
def isPySpace (c : Char) : Bool :=
  c = ' ' || c = '\t' || c = '\n' || c = '\r' || c = '\x0b' || c = '\x0c'

/-- Python `str.strip()`: drop leading and trailing whitespace. -/
def pyStrip (s : PyStr) : PyStr :=
  ((s.dropWhile isPySpace).reverse.dropWhile isPySpace).reverse

/-- Python `str.find(c)` for a single character: index of the first
occurrence, `none` standing for `-1`. -/
def pyFindChar : PyStr → Char → Option Nat
  | [], _ => none
  | x :: xs, c => if x = c then some 0 else (pyFindChar xs c).map (· + 1)

/-- Python `str.rfind(c)` for a single character: index of the last
occurrence, `none` standing for `-1`. -/
def pyRFindChar (s : PyStr) (c : Char) : Option Nat :=
  (pyFindChar s.reverse c).map (fun i => s.length - 1 - i)

/-- Python slice `s[a:b]` (for `0 ≤ a ≤ b`). -/
def pySlice (s : PyStr) (a b : Nat) : PyStr := (s.drop a).take (b - a)

/-- Python `str.replace(old, new)` for single-character `old`. -/
def pyReplaceChar (s : PyStr) (old : Char) (new : PyStr) : PyStr :=
  s.flatMap (fun c => if c = old then new else [c])

/-!
## JSON values

The value type produced by Python's `json.loads`: JSON numbers are kept as
Python does, `int` for integer literals and `float` (modelled by `ℚ`) for
literals with a fraction or exponent part.  Objects become Python dicts;
we keep them as association lists with dict update semantics applied while
reading (first occurrence fixes the position, a repeated key overwrites
the value in place).
-/

inductive Json where
  | jnull : Json
  | jbool : Bool → Json
  | jint : Int → Json
  | jnum : ℚ → Json
  | jstr : PyStr → Json
  | jarr : List Json → Json
  | jobj : List (PyStr × Json) → Json

/-- Is the value a JSON object (a Python `dict`)? -/
def Json.isObj : Json → Bool
  | .jobj _ => true
  | _ => false

/-- Python dict truthiness of a JSON value (used by `call_gemini`'s
defensive unwrapping: `if first.get(k):`). -/
def Json.pyTruthyVal : Json → Bool
  | .jnull => false
  | .jbool b => b
  | .jint n => n ≠ 0
  | .jnum q => q ≠ 0
  | .jstr s => !s.isEmpty
  | .jarr l => !l.isEmpty
  | .jobj l => !l.isEmpty

/-- Lookup in a Python dict modelled as an association list
(`d.get(k)`, returning `None` as `none` when absent). -/
def dictGet (d : List (PyStr × Json)) (k : PyStr) : Option Json :=
  match d with
  | [] => none
  | (k', v) :: rest => if k' = k then some v else dictGet rest k

/-- Python dict assignment `d[k] = v`: overwrite in place when the key is
present, append otherwise. -/
def dictSet (d : List (PyStr × Json)) (k : PyStr) (v : Json) :
    List (PyStr × Json) :=
  match d with
  | [] => [(k, v)]
  | (k', v') :: rest =>
    if k' = k then (k', v) :: rest else (k', v') :: dictSet rest k v

/-!
## `json.loads`

A fuel-based recursive-descent reader for the JSON grammar accepted by
`json.loads` with default arguments: the four whitespace characters,
`null` / `true` / `false`, strings with the standard escapes (including
`\uXXXX`), numbers without leading zeros, arrays and objects.  Strict
string mode: an unescaped control character below `0x20` is rejected.
(The CPython extension accepting `NaN` / `Infinity` literals is not
modelled; no claim depends on it.)
-/

/-- JSON insignificant whitespace. -/
def isJsonWs (c : Char) : Bool :=
  c = ' ' || c = '\t' || c = '\n' || c = '\r'

/-- Skip insignificant whitespace. -/
def skipWs (s : PyStr) : PyStr := s.dropWhile isJsonWs

/-- Hex digit value. -/
def hexVal (c : Char) : Option Nat :=
  if '0' ≤ c ∧ c ≤ '9' then some (c.toNat - '0'.toNat)
  else if 'a' ≤ c ∧ c ≤ 'f' then some (c.toNat - 'a'.toNat + 10)
  else if 'A' ≤ c ∧ c ≤ 'F' then some (c.toNat - 'A'.toNat + 10)
  else none

/-- Read the body of a JSON string after the opening quote; returns the
decoded characters and the rest of the input after the closing quote. -/
def readJStr (fuel : Nat) (s : PyStr) : Option (PyStr × PyStr) :=
  match fuel with
  | 0 => none
  | fuel + 1 =>
    match s with
    | [] => none
    | '"' :: rest => some ([], rest)
    | '\\' :: esc =>
      match esc with
      | '"' :: rest => (readJStr fuel rest).map (fun (t, r) => ('"' :: t, r))
      | '\\' :: rest => (readJStr fuel rest).map (fun (t, r) => ('\\' :: t, r))
      | '/' :: rest => (readJStr fuel rest).map (fun (t, r) => ('/' :: t, r))
      | 'b' :: rest => (readJStr fuel rest).map (fun (t, r) => ('\x08' :: t, r))
      | 'f' :: rest => (readJStr fuel rest).map (fun (t, r) => ('\x0c' :: t, r))
      | 'n' :: rest => (readJStr fuel rest).map (fun (t, r) => ('\n' :: t, r))
      | 'r' :: rest => (readJStr fuel rest).map (fun (t, r) => ('\r' :: t, r))
      | 't' :: rest => (readJStr fuel rest).map (fun (t, r) => ('\t' :: t, r))
      | 'u' :: h1 :: h2 :: h3 :: h4 :: rest =>
        match hexVal h1, hexVal h2, hexVal h3, hexVal h4 with
        | some a, some b, some c, some d =>
          (readJStr fuel rest).map
            (fun (t, r) => (Char.ofNat (((a * 16 + b) * 16 + c) * 16 + d) :: t, r))
        | _, _, _, _ => none
      | _ => none
    | c :: rest =>
      if c.toNat < 0x20 then none
      else (readJStr fuel rest).map (fun (t, r) => (c :: t, r))

/-- Digit test. -/
def isDigitCh (c : Char) : Bool := '0' ≤ c && c ≤ '9'

/-- Value of a digit string (assumed non-empty, all digits). -/
def digitsToNat (ds : PyStr) : Nat :=
  ds.foldl (fun acc c => acc * 10 + (c.toNat - '0'.toNat)) 0

/-- Read a JSON number at the head of the input: optional minus sign,
integer part without leading zeros, optional fraction, optional exponent.
Integer literals yield `Json.jint`, others `Json.jnum`. -/
def readJNum (s : PyStr) : Option (Json × PyStr) :=
  let (neg, s1) := match s with
    | '-' :: rest => (true, rest)
    | _ => (false, s)
  let ip := s1.takeWhile isDigitCh
  let s2 := s1.dropWhile isDigitCh
  if ip.isEmpty then none
  else if ip.length > 1 ∧ ip.headI = '0' then none
  else
    let (fr, s3) := match s2 with
      | '.' :: rest =>
        let f := rest.takeWhile isDigitCh
        (some f, rest.dropWhile isDigitCh)
      | _ => (none, s2)
    match fr with
    | some f =>
      if f.isEmpty then none
      else readJNumExp neg ip (some f) s3
    | none => readJNumExp neg ip none s3
where
  /-- Read the optional exponent and assemble the number. -/
  readJNumExp (neg : Bool) (ip : PyStr) (fr : Option PyStr) (s : PyStr) :
      Option (Json × PyStr) :=
    let hasExp := match s with
      | 'e' :: _ => true
      | 'E' :: _ => true
      | _ => false
    if hasExp then
      let s1 := s.drop 1
      let (eneg, s2) := match s1 with
        | '-' :: rest => (true, rest)
        | '+' :: rest => (false, rest)
        | _ => (false, s1)
      let ed := s2.takeWhile isDigitCh
      if ed.isEmpty then none
      else
        let s3 := s2.dropWhile isDigitCh
        some (assemble neg ip fr (some (eneg, digitsToNat ed)), s3)
    else some (assemble neg ip fr none, s)
  /-- Assemble the numeric value, `jint` for plain integer literals. -/
  assemble (neg : Bool) (ip : PyStr) (fr : Option PyStr)
      (ex : Option (Bool × Nat)) : Json :=
    match fr, ex with
    | none, none =>
      let n : Int := Int.ofNat (digitsToNat ip)
      .jint (if neg then -n else n)
    | _, _ =>
      let f := fr.getD []
      let mant : ℚ := (digitsToNat ip * 10 ^ f.length + digitsToNat f : ℕ)
      let base : ℚ := mant / (10 : ℚ) ^ f.length
      let scaled : ℚ := match ex with
        | none => base
        | some (eneg, e) =>
          if eneg then base / (10 : ℚ) ^ e else base * (10 : ℚ) ^ e
      .jnum (if neg then -scaled else scaled)

mutual

/-- Read one JSON value (after skipping leading whitespace). -/
def readJVal (fuel : Nat) (s : PyStr) : Option (Json × PyStr) :=
  match fuel with
  | 0 => none
  | fuel + 1 =>
    match skipWs s with
    | [] => none
    | '{' :: rest =>
      match skipWs rest with
      | '}' :: rest2 => some (.jobj [], rest2)
      | _ => readJMembers fuel rest []
    | '[' :: rest =>
      match skipWs rest with
      | ']' :: rest2 => some (.jarr [], rest2)
      | _ => readJElems fuel rest []
    | '"' :: rest => (readJStr fuel rest).map (fun (t, r) => (.jstr t, r))
    | 't' :: 'r' :: 'u' :: 'e' :: rest => some (.jbool true, rest)
    | 'f' :: 'a' :: 'l' :: 's' :: 'e' :: rest => some (.jbool false, rest)
    | 'n' :: 'u' :: 'l' :: 'l' :: rest => some (.jnull, rest)
    | s' => readJNum s'

/-- Read the members of an object after its `{` (non-empty case),
accumulating into a Python dict. -/
def readJMembers (fuel : Nat) (s : PyStr) (acc : List (PyStr × Json)) :
    Option (Json × PyStr) :=
  match fuel with
  | 0 => none
  | fuel + 1 =>
    match skipWs s with
    | '"' :: rest =>
      match readJStr fuel rest with
      | none => none
      | some (k, r1) =>
        match skipWs r1 with
        | ':' :: r2 =>
          match readJVal fuel r2 with
          | none => none
          | some (v, r3) =>
            let acc := dictSet acc k v
            match skipWs r3 with
            | ',' :: r4 => readJMembers fuel r4 acc
            | '}' :: r4 => some (.jobj acc, r4)
            | _ => none
        | _ => none
    | _ => none

/-- Read the elements of an array after its `[` (non-empty case). -/
def readJElems (fuel : Nat) (s : PyStr) (acc : List Json) :
    Option (Json × PyStr) :=
  match fuel with
  | 0 => none
  | fuel + 1 =>
    match readJVal fuel s with
    | none => none
    | some (v, r1) =>
      match skipWs r1 with
      | ',' :: r2 => readJElems fuel r2 (acc ++ [v])
      | ']' :: r2 => some (.jarr (acc ++ [v]), r2)
      | _ => none

end

/-- Python `json.loads`: parse a complete JSON document, requiring only
whitespace after the value; `none` models a raised `JSONDecodeError`. -/
def jsonLoads (s : PyStr) : Option Json :=
  match readJVal (s.length + 1) s with
  | some (v, rest) => if skipWs rest = [] then some v else none
  | none => none

/-!
## `json.dumps`

The writer with `json.dumps` default settings: `", "` and `": "`
separators, `ensure_ascii=True` so every character outside printable
ASCII is written as a `\uXXXX` escape (a surrogate pair above `0xFFFF`).
-/

/-- Hex digit character for a value below 16. -/
def hexDigit (n : Nat) : Char :=
  if n < 10 then Char.ofNat ('0'.toNat + n) else Char.ofNat ('a'.toNat + n - 10)

/-- Four-digit lowercase hex rendering of a value below `0x10000`. -/
def hex4 (n : Nat) : PyStr :=
  [hexDigit (n / 4096 % 16), hexDigit (n / 256 % 16),
   hexDigit (n / 16 % 16), hexDigit (n % 16)]

/-- Escape a single character as `json.dumps` does with `ensure_ascii`. -/
def dumpChar (c : Char) : PyStr :=
  if c = '"' then pystr "\\\""
  else if c = '\\' then pystr "\\\\"
  else if c = '\n' then pystr "\\n"
  else if c = '\t' then pystr "\\t"
  else if c = '\r' then pystr "\\r"
  else if c = '\x08' then pystr "\\b"
  else if c = '\x0c' then pystr "\\f"
  else if c.toNat < 0x20 ∨ c.toNat > 0x7e then
    if c.toNat < 0x10000 then '\\' :: 'u' :: hex4 c.toNat
    else
      let n := c.toNat - 0x10000
      ('\\' :: 'u' :: hex4 (0xd800 + n / 0x400)) ++
      ('\\' :: 'u' :: hex4 (0xdc00 + n % 0x400))
  else [c]

/-- Serialize a string with surrounding quotes. -/
def dumpStr (s : PyStr) : PyStr := '"' :: s.flatMap dumpChar ++ ['"']

/-- Decimal rendering of an integer. -/
def dumpInt (n : Int) : PyStr := (toString n).toList

/-- Rendering of a non-integer number (a Python float); modelled as the
decimal-style rendering of the rational value. -/
def dumpRat (q : ℚ) : PyStr := (toString q).toList

/-- Interpose a separator between rendered items. -/
def joinSep (sep : PyStr) : List PyStr → PyStr
  | [] => []
  | [x] => x
  | x :: xs => x ++ sep ++ joinSep sep xs

mutual

/-- Python `json.dumps` with default settings. -/
def jsonDumps (v : Json) : PyStr :=
  match v with
  | .jnull => pystr "null"
  | .jbool true => pystr "true"
  | .jbool false => pystr "false"
  | .jint n => dumpInt n
  | .jnum q => dumpRat q
  | .jstr s => dumpStr s
  | .jarr l => '[' :: joinSep (pystr ", ") (dumpList l) ++ [']']
  | .jobj d => '{' :: joinSep (pystr ", ") (dumpFields d) ++ ['}']

/-- Render each array element. -/
def dumpList : List Json → List PyStr
  | [] => []
  | v :: vs => jsonDumps v :: dumpList vs

/-- Render each object member as `"key": value`. -/
def dumpFields : List (PyStr × Json) → List PyStr
  | [] => []
  | (k, v) :: fs => (dumpStr k ++ pystr ": " ++ jsonDumps v) :: dumpFields fs

end

/-!
## `llm.py`: `extract_json_from_text` (lines 134–164)

The three-tier lenient recovery parser.  The input is `Option PyStr` so
that a Python `None` argument is representable (`if not s: return None`
handles both `None` and the empty string).
-/

/-- Tier-3 lossy repair (line 159): every newline becomes a single space,
every apostrophe becomes a double quote. -/
def tier3Clean (candidate : PyStr) : PyStr :=
  pyReplaceChar (pyReplaceChar candidate '\n' [' ']) '\'' ['"']

/-- `extract_json_from_text` from `llm.py`: direct parse of the stripped
input, then the first-`{`-to-last-`}` substring, then the substring after
the two lossy repairs; `none` when everything fails. -/
def extract_json_from_text (s₀ : Option PyStr) : Option Json :=
  match s₀ with
  | none => none
  | some s =>
    if s = [] then none
    else
      let s := pyStrip s
      match jsonLoads s with
      | some v => some v
      | none =>
        match pyFindChar s '{', pyRFindChar s '}' with
        | some start, some stop =>
          if start ≤ stop then
            let candidate := pySlice s start (stop + 1)
            match jsonLoads candidate with
            | some v => some v
            | none => jsonLoads (tier3Clean candidate)
          else none
        | _, _ => none

/-!
## `llm.py`: `call_gemini` (lines 98–131)

The SDK call is an oracle from model name and prompt to either a raised
exception or a response object; the body of `call_gemini`, including the
defensive unwrapping of the known response shapes, is translated below.
-/

/-- An exception caught by `call_gemini`: the Python type name
(`type(e).__name__`) and the message (`str(e)`). -/
structure PyExn where
  kind : PyStr
  msg : PyStr

/-- The response shapes `call_gemini` distinguishes: an SDK object with an
optional `text` attribute and a `str()` rendering, or a dict-like value. -/
inductive GenResp where
  | sdkObj (text : Option PyStr) (strRepr : PyStr)
  | pyDict (d : List (PyStr × Json))

/-- Python `a or b` on an optional dict lookup (`None` and falsy values
fall through to `b`). -/
def pyOrJson (a : Option Json) (b : Json) : Json :=
  match a with
  | some v => if v.pyTruthyVal then v else b
  | none => b

/-- `if isinstance(first, dict) and first.get(k):` for one key of the
candidate loop — the value only when present and truthy. -/
def tryKey (fd : List (PyStr × Json)) (k : PyStr) : Option Json :=
  match dictGet fd k with
  | some v => if v.pyTruthyVal then some v else none
  | none => none

/-- The `for k in ("content", "text", "output")` loop over the first
candidate (llm.py lines 115–118). -/
def candidateField (first : Json) : Option Json :=
  match first with
  | .jobj fd =>
    match tryKey fd (pystr "content") with
    | some v => some v
    | none =>
      match tryKey fd (pystr "text") with
      | some v => some v
      | none => tryKey fd (pystr "output")
  | _ => none

/-- The non-raising part of `call_gemini` (llm.py lines 107–127): the
`resp.text` shortcut, the dict-like candidate unwrapping, the `output`
string field, `json.dumps(resp)`, and the final `str(resp)` fallback. -/
def unwrapResp (resp : GenResp) : Json :=
  match resp with
  | .sdkObj text strRepr =>
    match text with
    | some t => if t ≠ [] then .jstr t else .jstr strRepr
    | none => .jstr strRepr
  | .pyDict d =>
    let cands := pyOrJson (dictGet d (pystr "candidates"))
      (pyOrJson (dictGet d (pystr "outputs")) (.jarr []))
    let fromCand : Option Json :=
      match cands with
      | .jarr (first :: _) => candidateField first
      | _ => none
    match fromCand with
    | some v => v
    | none =>
      match dictGet d (pystr "output") with
      | some (.jstr out) => .jstr out
      | _ => .jstr (jsonDumps (.jobj d))

/-- `DEFAULT_MODEL` from llm.py line 95. -/
def DEFAULT_MODEL : PyStr := pystr "gemini-2.5-flash"

/-- `call_gemini` (llm.py lines 98–131): on any exception the synthesized
`{"error": "<kind>: <message>"}` JSON string is returned (line 131);
the result is a Python value because the candidate loop can return a
non-string field. -/
def call_gemini (generate : PyStr → PyStr → Except PyExn GenResp)
    (prompt : PyStr) (model_name : PyStr) : Json :=
  match generate model_name prompt with
  | .ok resp => unwrapResp resp
  | .error e =>
    .jstr (jsonDumps (.jobj [(pystr "error", .jstr (e.kind ++ pystr ": " ++ e.msg))]))

/-!
## `nearby.py`: the locality pipeline

Association-list primitives with Python dict semantics (first occurrence
fixes the position, assignment overwrites in place), shared by the dedupe
stage and `LANG_MAP`.
-/

/-- Python `d.get(k)` on an association list. -/
def alookup {κ ν : Type} [DecidableEq κ] : List (κ × ν) → κ → Option ν
  | [], _ => none
  | (k', v) :: rest, k => if k' = k then some v else alookup rest k

/-- Python `d[k] = v`: overwrite in place when present, append otherwise. -/
def aset {κ ν : Type} [DecidableEq κ] :
    List (κ × ν) → κ → ν → List (κ × ν)
  | [], k, v => [(k, v)]
  | (k', v') :: rest, k, v =>
    if k' = k then (k', v) :: rest else (k', v') :: aset rest k v

/-- A record of the `results` list of `nearby_search`
(nearby.py lines 53–59). -/
structure NearbyHit where
  name : PyStr
  address : PyStr
  lat : ℚ
  lon : ℚ
  distance_km : ℚ
  deriving DecidableEq

/-- Python `round(x, n)` on a rational: round half to even at the `n`-th
decimal place. -/
def pyRound (x : ℚ) (n : ℕ) : ℚ :=
  let scaled := x * (10 : ℚ) ^ n
  let fl := ⌊scaled⌋
  let r : ℤ :=
    if scaled - fl < 1 / 2 then fl
    else if scaled - fl > 1 / 2 then fl + 1
    else if fl % 2 = 0 then fl else fl + 1
  (r : ℚ) / (10 : ℚ) ^ n

/-- The dedupe key (nearby.py line 66): both coordinates rounded to five
decimal places. -/
def hitKey (r : NearbyHit) : ℚ × ℚ := (pyRound r.lat 5, pyRound r.lon 5)

/-- One iteration of the dedupe loop (lines 65–68): keep the recorded
entry unless the incoming distance is strictly smaller. -/
def dedupeStep (uniq : List ((ℚ × ℚ) × NearbyHit)) (r : NearbyHit) :
    List ((ℚ × ℚ) × NearbyHit) :=
  match alookup uniq (hitKey r) with
  | none => uniq ++ [(hitKey r, r)]
  | some v =>
    if v.distance_km > r.distance_km then aset uniq (hitKey r) r else uniq

/-- Stable insertion of a hit into a list sorted by `distance_km`. -/
def insHit (a : NearbyHit) : List NearbyHit → List NearbyHit
  | [] => [a]
  | b :: bs =>
    if a.distance_km ≤ b.distance_km then a :: b :: bs else b :: insHit a bs

/-- Python `sorted(·, key=lambda x: x["distance_km"])` (line 69): a stable
sort by distance, modelled by stable insertion sort (stable sorts under a
total preorder are unique, so this is the `sorted` builtin's result). -/
def sortHits : List NearbyHit → List NearbyHit
  | [] => []
  | a :: rest => insHit a (sortHits rest)

/-- The dedupe/sort/truncate stage of `nearby_search` (lines 63–70). -/
def nearbyDedupe (results : List NearbyHit) (limit : ℕ) : List NearbyHit :=
  (sortHits ((results.foldl dedupeStep []).map Prod.snd)).take limit

/-- A geopy search result as `nearby_search` consumes it: the coordinate
attributes, the optional `raw["display_name"]`, and the `address`
attribute. -/
structure GeoPlace where
  latitude : ℚ
  longitude : ℚ
  display_name : Option PyStr
  address : PyStr

/-- Python `a or b` on strings: `a` when truthy, else `b`. -/
def pyOrStr (a b : PyStr) : PyStr := if a ≠ [] then a else b

/-- Build one `results` entry (nearby.py lines 50–59): the great-circle
distance comes from the external `haversine` library, passed as `hav`,
and is rounded to two decimals. -/
def mkHit (hav : ℚ × ℚ → ℚ × ℚ → ℚ) (lat lon : ℚ) (query : PyStr)
    (p : GeoPlace) : NearbyHit :=
  { name := p.display_name.getD query
    address := pyOrStr (p.display_name.getD []) (pyOrStr p.address [])
    lat := p.latitude
    lon := p.longitude
    distance_km := pyRound (hav (lat, lon) (p.latitude, p.longitude)) 2 }

/-- Rendering of a coordinate inside an f-string (Python renders the
float; the rational value is rendered here). -/
def showCoord (q : ℚ) : PyStr := (toString q).toList

/-- Query variant 1: `f"{query} near {lat},{lon}"` (nearby.py line 28). -/
def variantQ1 (query : PyStr) (lat lon : ℚ) : PyStr :=
  query ++ pystr " near " ++ showCoord lat ++ [','] ++ showCoord lon

/-- Query variant 2: `f"{query} near India"` (line 29). -/
def variantQ2 (query : PyStr) : PyStr := query ++ pystr " near India"

/-- Query variant 3: `f"{query} {lat} {lon}"` (line 30). -/
def variantQ3 (query : PyStr) (lat lon : ℚ) : PyStr :=
  query ++ [' '] ++ showCoord lat ++ [' '] ++ showCoord lon

/-- The fallback query: `f"{query} India"` (line 44). -/
def variantQ4 (query : PyStr) : PyStr := query ++ pystr " India"

/-- Truthiness of the `places` variable (`None` and `[]` are falsy). -/
def pyTruthyPlaces : Option (List GeoPlace) → Bool
  | some l => !l.isEmpty
  | none => false

/-- One guarded geocoder call, the `try: geolocator.geocode(...)
except: None` pattern of `nearby_search`: the returned list, the `None`
return, or `None` for a raised exception. -/
def callGeocode (geocode : PyStr → ℕ → Except Unit (Option (List GeoPlace)))
    (q : PyStr) (n : ℕ) : Option (List GeoPlace) :=
  match geocode q n with
  | .error _ => none
  | .ok v => v

/-- The variant loop of `nearby_search` (lines 32–39): `places` starts as
`None`, each iteration overwrites it with the call's result (`None` upon
an exception) and the loop breaks on a truthy value. -/
def tryVariants (geocode : PyStr → ℕ → Except Unit (Option (List GeoPlace)))
    (lim : ℕ) : List PyStr → Option (List GeoPlace) → Option (List GeoPlace)
  | [], places => places
  | q :: qs, _ =>
    let r := callGeocode geocode q (lim * 2)
    if pyTruthyPlaces r then r else tryVariants geocode lim qs r

/-- `nearby_search` (nearby.py lines 20–70) with the geocoding service and
the haversine distance passed as oracles (`.error` models a raised
exception, `.ok none` a `None` return). -/
def nearby_search (geocode : PyStr → ℕ → Except Unit (Option (List GeoPlace)))
    (hav : ℚ × ℚ → ℚ × ℚ → ℚ)
    (query : PyStr) (lat lon : ℚ) (limit : ℕ) : List NearbyHit :=
  let tries := [variantQ1 query lat lon, variantQ2 query, variantQ3 query lat lon]
  let places := tryVariants geocode limit tries none
  let places :=
    if pyTruthyPlaces places then places
    else callGeocode geocode (variantQ4 query) (limit * 2)
  let results :=
    if pyTruthyPlaces places then (places.getD []).map (mkHit hav lat lon query)
    else []
  nearbyDedupe results limit

/-- Modelled from the spec's words, for comparison with the code in claim
C7: the first query variant — in the fixed priority order with
`"<category> India"` last — whose call returns a non-empty result list,
each variant asked for `2 × limit` raw hits; `none` when every variant
raised or returned nothing. -/
def specFirstVariant
    (geocode : PyStr → ℕ → Except Unit (Option (List GeoPlace)))
    (query : PyStr) (lat lon : ℚ) (limit : ℕ) : Option (List GeoPlace) :=
  let ask : PyStr → Option (List GeoPlace) := fun q =>
    match callGeocode geocode q (limit * 2) with
    | none => none
    | some l => if l.isEmpty then none else some l
  (ask (variantQ1 query lat lon)).orElse (fun _ =>
    (ask (variantQ2 query)).orElse (fun _ =>
      (ask (variantQ3 query lat lon)).orElse (fun _ =>
        ask (variantQ4 query))))

/-- A geopy `Location` as `geocode_location` consumes it. -/
structure GeoLoc where
  latitude : ℚ
  longitude : ℚ
  address : PyStr

/-- The record `geocode_location` returns. -/
structure GeoRecord where
  lat : ℚ
  lon : ℚ
  address : PyStr
  deriving DecidableEq

/-- `geocode_location` (nearby.py lines 10–18) with the rate-limited
geocoder as an oracle: `.error` a raised exception, `.ok none` an empty
(`None`) result. -/
def geocode_location (geocode_multi : PyStr → Except Unit (Option GeoLoc))
    (text : PyStr) : Option GeoRecord :=
  match geocode_multi (text ++ pystr ", India") with
  | .error _ => none
  | .ok none => none
  | .ok (some loc) => some ⟨loc.latitude, loc.longitude, loc.address⟩

/-!
## `utils.py`
-/

/-- `LANG_MAP` (utils.py lines 5–8). -/
def LANG_MAP : List (PyStr × PyStr) :=
  [(pystr "English", pystr "en"), (pystr "Hindi", pystr "hi"),
   (pystr "Kannada", pystr "kn"), (pystr "Marathi", pystr "mr"),
   (pystr "Tamil", pystr "ta"), (pystr "Telugu", pystr "te"),
   (pystr "Bengali", pystr "bn"), (pystr "Gujarati", pystr "gu")]

/-- `translate_text` (utils.py lines 10–18): the GoogleTranslator call is
an oracle from target code and text to a translation or a raised
exception; a `none` input models a Python `None` argument (`if not text:
return text` covers both `None` and the empty string). -/
def translate_text (tr : PyStr → PyStr → Except Unit PyStr)
    (text : Option PyStr) (target_language_name : PyStr) : Option PyStr :=
  match text with
  | none => none
  | some t =>
    if t = [] then some t
    else
      let target_code := (alookup LANG_MAP target_language_name).getD (pystr "en")
      match tr target_code t with
      | .ok r => some r
      | .error _ => some t

/-!
## Invariant of the dedupe map

The fold state of the dedupe loop, related to the hits already processed:
every stored entry sits under its own rounded key, realizes the minimum
distance among the processed hits with that key, the keys are distinct,
and every processed hit's key is present.
-/

/-- The invariant the dedupe dict maintains over the processed hits. -/
def MapInv (processed : List NearbyHit) (m : List ((ℚ × ℚ) × NearbyHit)) :
    Prop :=
  (∀ kv ∈ m, hitKey kv.2 = kv.1) ∧
  (∀ kv ∈ m, ∀ r ∈ processed, hitKey r = kv.1 →
    kv.2.distance_km ≤ r.distance_km) ∧
  ((m.map Prod.fst).Pairwise (· ≠ ·)) ∧
  (∀ r ∈ processed, ∃ kv ∈ m, kv.1 = hitKey r)

/-!
## Theorems about the response extractor
-/

/-- Claim C1: the tier-1 path returns whatever `json.loads` produced, so a
raw string that is valid JSON but not an object comes back as a non-object
value — on the raw string `"5"` the extractor returns the Python int `5`,
although the function's own docstring and annotation (and the claim)
say every non-null return is a parsed dict. -/
theorem extract_returns_nonobject_on_bare_int :
    extract_json_from_text (some (pystr "5")) = some (Json.jint 5) ∧
    Json.isObj (Json.jint 5) = false :=
  ⟨rfl, rfl⟩

/-- Claim C2: whenever the trimmed raw string parses as a JSON object,
`extract_json_from_text` returns exactly that decoding (tier 1 wins). -/
theorem extract_tier1_direct (raw : PyStr) (v : Json)
    (hv : jsonLoads (pyStrip raw) = some v) (_hobj : v.isObj = true) :
    extract_json_from_text (some raw) = some v := by
  match raw with
  | [] =>
    rw [show pyStrip [] = [] from rfl, show jsonLoads [] = none from rfl] at hv
    exact absurd hv (by simp)
  | c :: cs =>
    simp only [extract_json_from_text, hv]
    rw [if_neg (by simp)]

/-- Witness for C2 at a concrete raw string. -/
theorem extract_tier1_direct_witness :
    extract_json_from_text (some (pystr "\x7b\"a\": 1\x7d")) =
      some (Json.jobj [(pystr "a", Json.jint 1)]) :=
  extract_tier1_direct _ _ rfl rfl

/-- Claim C4: when tier 1 fails and the brace-delimited substring also
fails to parse, the extractor returns exactly the decoding of that
substring after the two lossy repairs (newline to space, apostrophe to
double quote), or null when even that fails — an `Option` result, never
an exception. -/
theorem extract_tier3_repairs (raw : PyStr) (st sp : Nat)
    (h1 : jsonLoads (pyStrip raw) = none)
    (hf : pyFindChar (pyStrip raw) '{' = some st)
    (hr : pyRFindChar (pyStrip raw) '}' = some sp)
    (hle : st ≤ sp)
    (h2 : jsonLoads (pySlice (pyStrip raw) st (sp + 1)) = none) :
    extract_json_from_text (some raw) =
      jsonLoads (tier3Clean (pySlice (pyStrip raw) st (sp + 1))) := by
  have hraw : raw ≠ [] := by
    intro h
    rw [h, show pyStrip [] = [] from rfl] at hf
    simp [pyFindChar] at hf
  match raw, hraw with
  | c :: cs, _ =>
    simp only [extract_json_from_text, h1, hf, hr, h2, if_pos hle]
    rw [if_neg (by simp)]

/-- Witness for C4: the spec's own tier-3 example, single quotes and an
embedded newline, repaired and parsed. -/
theorem extract_tier3_repairs_witness :
    extract_json_from_text (some (pystr "\x7b'case_type': 'accident',\n'severity': 4\x7d")) =
      jsonLoads (tier3Clean (pySlice
        (pyStrip (pystr "\x7b'case_type': 'accident',\n'severity': 4\x7d")) 0 (39 + 1))) ∧
    extract_json_from_text (some (pystr "\x7b'case_type': 'accident',\n'severity': 4\x7d")) =
      some (Json.jobj [(pystr "case_type", Json.jstr (pystr "accident")),
                       (pystr "severity", Json.jint 4)]) :=
  ⟨extract_tier3_repairs _ 0 39 rfl rfl rfl (Nat.zero_le _) rfl, rfl⟩

/-!
## Theorems about `call_gemini`
-/

/-- Claim C8: whenever the SDK call raises, `call_gemini` returns the
synthesized raw string serializing `{"error": "<kind>: <message>"}` —
the error is converted, never propagated, so the raw channel always
carries a value of the one shape. -/
theorem call_gemini_error_shape
    (generate : PyStr → PyStr → Except PyExn GenResp)
    (prompt model_name : PyStr) (e : PyExn)
    (h : generate model_name prompt = .error e) :
    call_gemini generate prompt model_name =
      .jstr (jsonDumps (.jobj [(pystr "error",
        .jstr (e.kind ++ pystr ": " ++ e.msg))])) := by
  unfold call_gemini
  rw [h]

/-- Witness for C8 at a concrete raising oracle. -/
theorem call_gemini_error_shape_witness :
    call_gemini (fun _ _ => .error ⟨pystr "TimeoutError", pystr "deadline exceeded"⟩)
        (pystr "p") DEFAULT_MODEL =
      .jstr (jsonDumps (.jobj [(pystr "error",
        .jstr (pystr "TimeoutError" ++ pystr ": " ++ pystr "deadline exceeded"))])) :=
  call_gemini_error_shape _ (pystr "p") DEFAULT_MODEL
    ⟨pystr "TimeoutError", pystr "deadline exceeded"⟩ rfl

/-!
## Theorems about `geocode_location` and `translate_text`
-/

/-- Claim C9: `geocode_location` appends `", India"` to the input, maps a
first result to the `{lat, lon, address}` record, and yields `none` on an
exception or an empty result — in the model, a total function of the
oracle's outcome at exactly the qualified query. -/
theorem geocode_location_spec (g : PyStr → Except Unit (Option GeoLoc))
    (text : PyStr) :
    (∀ e, g (text ++ pystr ", India") = .error e →
      geocode_location g text = none) ∧
    (g (text ++ pystr ", India") = .ok none →
      geocode_location g text = none) ∧
    (∀ loc, g (text ++ pystr ", India") = .ok (some loc) →
      geocode_location g text =
        some ⟨loc.latitude, loc.longitude, loc.address⟩) := by
  refine ⟨fun e h => ?_, fun h => ?_, fun loc h => ?_⟩ <;>
    (unfold geocode_location; rw [h])

/-- Witness for C9 at a concrete geocoder oracle. -/
theorem geocode_location_spec_witness :
    geocode_location (fun _ => .ok (some ⟨19, 72, pystr "Mumbai, India"⟩))
        (pystr "Mumbai") = some ⟨19, 72, pystr "Mumbai, India"⟩ :=
  (geocode_location_spec _ (pystr "Mumbai")).2.2 ⟨19, 72, pystr "Mumbai, India"⟩ rfl

/-- Claim C10: a `target_language_name` outside `LANG_MAP` silently falls
back to the code `"en"` (the behavior coincides with `"English"`), and a
falsy (`None` or empty) text is returned unchanged with the translation
oracle never consulted (the result does not depend on it). -/
theorem translate_text_fallback (tr : PyStr → PyStr → Except Unit PyStr)
    (name : PyStr) (text : Option PyStr) :
    (alookup LANG_MAP name = none →
      translate_text tr text name = translate_text tr text (pystr "English")) ∧
    (translate_text tr none name = none) ∧
    (translate_text tr (some []) name = some []) ∧
    (∀ tr', translate_text tr none name = translate_text tr' none name ∧
      translate_text tr (some []) name = translate_text tr' (some []) name) := by
  refine ⟨fun h => ?_, rfl, rfl, fun tr' => ⟨rfl, rfl⟩⟩
  cases text with
  | none => rfl
  | some t =>
    simp only [translate_text, h, Option.getD_none, Option.getD_some,
      show alookup LANG_MAP (pystr "English") = some (pystr "en") from rfl]

/-- Witness for C10 at an unsupported language name and a concrete
translation oracle. -/
theorem translate_text_fallback_witness :
    translate_text (fun _ t => .ok (t ++ pystr "!"))
        (some (pystr "hello")) (pystr "Klingon") =
      translate_text (fun _ t => .ok (t ++ pystr "!"))
        (some (pystr "hello")) (pystr "English") :=
  (translate_text_fallback _ (pystr "Klingon") (some (pystr "hello"))).1 rfl

/-!
## Locating the brace-delimited substring (tier 2)
-/

/-- `find` skips a block that does not contain the character. -/
theorem pyFindChar_append_of_forall_ne (l r : PyStr) (c : Char)
    (h : ∀ x ∈ l, x ≠ c) :
    pyFindChar (l ++ r) c = (pyFindChar r c).map (· + l.length) := by
  induction l with
  | nil =>
    cases hr : pyFindChar r c <;> simp [hr]
  | cons x xs ih =>
    have hx : x ≠ c := h x (by simp)
    have ih' := ih (fun y hy => h y (by simp [hy]))
    simp only [List.cons_append, pyFindChar, if_neg hx, ih']
    cases hr : pyFindChar r c with
    | none => simp [ih', hr]
    | some a => simp [ih', hr, Nat.add_assoc]

/-- `find` answers `0` when the character heads the string. -/
theorem pyFindChar_cons_self (c : Char) (t : PyStr) :
    pyFindChar (c :: t) c = some 0 := by
  simp [pyFindChar]

/-- First `{` of a `noise ++ body ++ noise` decomposition whose left noise
is brace-free and whose body opens with `{`. -/
theorem pyFindChar_decomp (pre body post : PyStr) (c : Char)
    (hpre : ∀ x ∈ pre, x ≠ c) (hhead : body.head? = some c) :
    pyFindChar (pre ++ body ++ post) c = some pre.length := by
  obtain ⟨t, rfl⟩ : ∃ t, body = c :: t := by
    cases body with
    | nil => simp at hhead
    | cons y ys =>
      simp only [List.head?_cons, Option.some.injEq] at hhead
      exact ⟨ys, by rw [hhead]⟩
  rw [List.append_assoc, pyFindChar_append_of_forall_ne pre _ c hpre]
  simp [pyFindChar_cons_self]

/-- Last `}` of the decomposition: right noise free of the character, body
closing with it. -/
theorem pyRFindChar_decomp (pre body post : PyStr) (c : Char)
    (hpost : ∀ x ∈ post, x ≠ c) (hlast : body.getLast? = some c) :
    pyRFindChar (pre ++ body ++ post) c =
      some (pre.length + body.length - 1) := by
  unfold pyRFindChar
  have hrev : (pre ++ body ++ post).reverse =
      post.reverse ++ (body.reverse ++ pre.reverse) := by
    simp [List.reverse_append]
  have hhead : body.reverse.head? = some c := by
    rw [List.head?_reverse]; exact hlast
  obtain ⟨t, ht⟩ : ∃ t, body.reverse = c :: t := by
    cases hb : body.reverse with
    | nil => rw [hb] at hhead; simp at hhead
    | cons y ys =>
      rw [hb] at hhead
      simp only [List.head?_cons, Option.some.injEq] at hhead
      exact ⟨ys, by rw [hhead]⟩
  have hbody_len : 1 ≤ body.length := by
    have := congrArg List.length ht
    simp at this
    omega
  rw [hrev, pyFindChar_append_of_forall_ne _ _ _ (by simpa using hpost), ht]
  simp only [List.cons_append, pyFindChar_cons_self, Option.map_some']
  congr 1
  simp only [List.length_append, List.length_reverse, Nat.zero_add]
  omega

/-- Slicing the decomposition from the first to the last brace recovers
the body. -/
theorem pySlice_decomp (pre body post : PyStr) (h1 : 1 ≤ body.length) :
    pySlice (pre ++ body ++ post) pre.length
      (pre.length + body.length - 1 + 1) = body := by
  unfold pySlice
  have harr : pre.length + body.length - 1 + 1 - pre.length = body.length := by
    omega
  rw [harr, show pre ++ body ++ post = pre ++ (body ++ post) from by simp,
    List.drop_left, List.take_left]

/-- Claim C3's counterexample input: with leading noise `"\x7b "` — noise
that itself contains a brace — around the valid JSON object
`{"a":1}`, tier 1 fails, tiers 2 and 3 parse the substring from the
first `{` (inside the noise) and fail, so the extractor returns `none`,
while decoding the inner JSON directly succeeds.  The claim's equality
fails for this noise decomposition. -/
theorem extract_tier2_noise_counterexample :
    jsonLoads (pyStrip (pystr "\x7b " ++ pystr "\x7b\"a\":1\x7d")) = none ∧
    extract_json_from_text (some (pystr "\x7b " ++ pystr "\x7b\"a\":1\x7d")) = none ∧
    jsonLoads (pystr "\x7b\"a\":1\x7d") = some (Json.jobj [(pystr "a", Json.jint 1)]) :=
  ⟨rfl, rfl, rfl⟩

/-- Claim C3 as amended: for raw strings whose trimmed form decomposes as
`noise ++ body ++ noise` where `body` is a brace-delimited valid JSON
object, the left noise contains no `{` and the right noise no `}`, and
tier 1 fails, the extractor returns exactly the decoding of the substring
from the first `{` to the last `}` — which is the body itself. -/
theorem extract_tier2_noise (raw pre body post : PyStr) (v : Json)
    (hdecomp : pyStrip raw = pre ++ body ++ post)
    (hhead : body.head? = some '{')
    (hlast : body.getLast? = some '}')
    (hpre : ∀ x ∈ pre, x ≠ '{')
    (hpost : ∀ x ∈ post, x ≠ '}')
    (hbody : jsonLoads body = some v) (_hobj : v.isObj = true)
    (htier1 : jsonLoads (pyStrip raw) = none) :
    extract_json_from_text (some raw) = some v := by
  have hbody_ne : body ≠ [] := by
    intro h; rw [h] at hhead; simp at hhead
  have hbody_len : 1 ≤ body.length := by
    cases body with
    | nil => exact absurd rfl hbody_ne
    | cons y ys => simp
  have hraw_ne : raw ≠ [] := by
    intro h
    rw [h, show pyStrip [] = [] from rfl] at hdecomp
    have : body = [] := by
      rcases List.append_eq_nil.mp hdecomp.symm with ⟨h1, h2⟩
      exact (List.append_eq_nil.mp h1).2
    exact hbody_ne this
  rw [hdecomp] at htier1
  obtain ⟨c, cs, rfl⟩ : ∃ c cs, raw = c :: cs := by
    cases raw with
    | nil => exact absurd rfl hraw_ne
    | cons c cs => exact ⟨c, cs, rfl⟩
  simp only [extract_json_from_text, hdecomp, htier1,
    pyFindChar_decomp pre body post '{' hpre hhead,
    pyRFindChar_decomp pre body post '}' hpost hlast,
    pySlice_decomp pre body post hbody_len, hbody,
    if_pos (show pre.length ≤ pre.length + body.length - 1 by omega)]
  rw [if_neg (by simp)]

/-- Witness for the amended C3: the spec's own tier-2 example, commentary
noise around a valid JSON object. -/
theorem extract_tier2_noise_witness :
    extract_json_from_text
      (some (pystr "I think this helps: \x7b\"case_type\": \"consumer\", \"severity\": 3\x7d Thanks!")) =
      some (Json.jobj [(pystr "case_type", Json.jstr (pystr "consumer")),
                       (pystr "severity", Json.jint 3)]) :=
  extract_tier2_noise _
    (pystr "I think this helps: ")
    (pystr "\x7b\"case_type\": \"consumer\", \"severity\": 3\x7d")
    (pystr " Thanks!") _
    rfl rfl rfl (by decide) (by decide) rfl rfl rfl


/-!
## Association-list lemmas for the dedupe dict
-/

/-- A failed lookup characterizes an absent key. -/
theorem alookup_eq_none_iff {κ ν : Type} [DecidableEq κ]
    (m : List (κ × ν)) (k : κ) :
    alookup m k = none ↔ k ∉ m.map Prod.fst := by
  induction m with
  | nil => simp [alookup]
  | cons kv rest ih =>
    obtain ⟨k', v⟩ := kv
    by_cases h : k' = k
    · subst h; simp [alookup]
    · simp [alookup, h, ih, Ne.symm h]

/-- A successful lookup exhibits a member. -/
theorem alookup_mem {κ ν : Type} [DecidableEq κ]
    (m : List (κ × ν)) (k : κ) (v : ν) (h : alookup m k = some v) :
    (k, v) ∈ m := by
  induction m with
  | nil => simp [alookup] at h
  | cons kv rest ih =>
    obtain ⟨k', v'⟩ := kv
    by_cases hk : k' = k
    · subst hk
      have h' : some v' = some v := by rw [← h]; simp [alookup]
      injection h' with h'
      subst h'
      exact List.mem_cons_self _ _
    · simp only [alookup, if_neg hk] at h
      exact List.mem_cons_of_mem _ (ih h)

/-- A key among the stored keys has a lookup result. -/
theorem alookup_of_mem_keys {κ ν : Type} [DecidableEq κ]
    (m : List (κ × ν)) (k : κ) (h : k ∈ m.map Prod.fst) :
    ∃ v, alookup m k = some v := by
  cases hl : alookup m k with
  | some v => exact ⟨v, rfl⟩
  | none => exact absurd h ((alookup_eq_none_iff m k).mp hl)

/-- With distinct keys, every member is the value its key looks up to. -/
theorem alookup_self_of_mem {κ ν : Type} [DecidableEq κ]
    (m : List (κ × ν)) (kv : κ × ν) (h : kv ∈ m)
    (hdist : (m.map Prod.fst).Pairwise (· ≠ ·)) :
    alookup m kv.1 = some kv.2 := by
  induction m with
  | nil => simp at h
  | cons kv' rest ih =>
    obtain ⟨k', v'⟩ := kv'
    rw [List.map_cons] at hdist
    obtain ⟨hd1, hd2⟩ := List.pairwise_cons.mp hdist
    rcases List.mem_cons.mp h with h | h
    · rw [h]; simp [alookup]
    · have hk : k' ≠ kv.1 := by
        have hmem : kv.1 ∈ rest.map Prod.fst :=
          List.mem_map_of_mem Prod.fst h
        exact hd1 kv.1 hmem
      simp only [alookup, if_neg hk]
      exact ih h hd2

/-- With distinct keys, a member of the updated dict is an untouched old
member (under a different key) or the new binding. -/
theorem mem_aset_of_distinct {κ ν : Type} [DecidableEq κ]
    (m : List (κ × ν)) (k : κ) (w : ν) (kv : κ × ν)
    (hdist : (m.map Prod.fst).Pairwise (· ≠ ·))
    (h : kv ∈ aset m k w) :
    (kv ∈ m ∧ kv.1 ≠ k) ∨ kv = (k, w) := by
  induction m with
  | nil =>
    simp only [aset, List.mem_singleton] at h
    right; exact h
  | cons kv' rest ih =>
    obtain ⟨k', v'⟩ := kv'
    rw [List.map_cons] at hdist
    obtain ⟨hd1, hd2⟩ := List.pairwise_cons.mp hdist
    by_cases hk : k' = k
    · subst hk
      rw [show aset ((k', v') :: rest) k' w = (k', w) :: rest from by
        simp [aset]] at h
      rcases List.mem_cons.mp h with h | h
      · right; exact h
      · left
        refine ⟨List.mem_cons_of_mem _ h, ?_⟩
        have hmem : kv.1 ∈ rest.map Prod.fst :=
          List.mem_map_of_mem Prod.fst h
        exact fun he => hd1 kv.1 hmem (he ▸ rfl)
    · rw [show aset ((k', v') :: rest) k w = (k', v') :: aset rest k w from by
        simp [aset, hk]] at h
      rcases List.mem_cons.mp h with h | h
      · left
        refine ⟨by simp [h], ?_⟩
        rw [h]
        exact hk
      · rcases ih hd2 h with h' | h'
        · exact Or.inl ⟨List.mem_cons_of_mem _ h'.1, h'.2⟩
        · exact Or.inr h'

/-- Updating an existing key leaves the key sequence unchanged. -/
theorem aset_keys {κ ν : Type} [DecidableEq κ]
    (m : List (κ × ν)) (k : κ) (w : ν) (v : ν)
    (h : alookup m k = some v) :
    (aset m k w).map Prod.fst = m.map Prod.fst := by
  induction m with
  | nil => simp [alookup] at h
  | cons kv rest ih =>
    obtain ⟨k', v'⟩ := kv
    by_cases hk : k' = k
    · subst hk; simp [aset]
    · simp only [alookup, if_neg hk] at h
      simp [aset, hk, ih h]

/-!
## The dedupe fold invariant
-/

/-- One dedupe step preserves the invariant, extending the processed
hits by the incoming one. -/
theorem mapInv_step (processed : List NearbyHit)
    (m : List ((ℚ × ℚ) × NearbyHit)) (r : NearbyHit)
    (h : MapInv processed m) :
    MapInv (processed ++ [r]) (dedupeStep m r) := by
  obtain ⟨h1, h2, h3, h4⟩ := h
  unfold dedupeStep
  cases hl : alookup m (hitKey r) with
  | none =>
    have hnotin : hitKey r ∉ m.map Prod.fst := (alookup_eq_none_iff m _).mp hl
    refine ⟨?_, ?_, ?_, ?_⟩
    · intro kv hkv
      rcases List.mem_append.mp hkv with hm | hnew
      · exact h1 kv hm
      · simp only [List.mem_singleton] at hnew
        rw [hnew]
    · intro kv hkv x hx hkey
      rcases List.mem_append.mp hkv with hm | hnew
      · rcases List.mem_append.mp hx with hxp | hxr
        · exact h2 kv hm x hxp hkey
        · simp only [List.mem_singleton] at hxr
          subst hxr
          have hkeys : kv.1 ∈ m.map Prod.fst := List.mem_map_of_mem Prod.fst hm
          rw [← hkey] at hkeys
          exact absurd hkeys hnotin
      · simp only [List.mem_singleton] at hnew
        subst hnew
        have hkey2 : hitKey x = hitKey r := hkey
        rcases List.mem_append.mp hx with hxp | hxr
        · rcases h4 x hxp with ⟨kv', hkv', hk'⟩
          have hcontr : hitKey r ∈ m.map Prod.fst := by
            rw [← hkey2, ← hk']
            exact List.mem_map_of_mem Prod.fst hkv'
          exact absurd hcontr hnotin
        · simp only [List.mem_singleton] at hxr
          subst hxr
          exact le_refl _
    · rw [List.map_append]
      refine List.pairwise_append.mpr ⟨h3, by simp, ?_⟩
      intro a ha b hb
      simp only [List.map_cons, List.map_nil, List.mem_singleton] at hb
      subst hb
      exact fun he => hnotin (he ▸ ha)
    · intro x hx
      rcases List.mem_append.mp hx with hxp | hxr
      · rcases h4 x hxp with ⟨kv, hkv, hk⟩
        exact ⟨kv, List.mem_append_left _ hkv, hk⟩
      · simp only [List.mem_singleton] at hxr
        subst hxr
        exact ⟨(hitKey x, x), List.mem_append_right _ (by simp), rfl⟩
  | some v =>
    have hvm : (hitKey r, v) ∈ m := alookup_mem m _ v hl
    have hshow : MapInv (processed ++ [r])
        (if v.distance_km > r.distance_km then aset m (hitKey r) r else m) →
        MapInv (processed ++ [r])
          (match some v with
          | none => m ++ [(hitKey r, r)]
          | some v =>
            if v.distance_km > r.distance_km then aset m (hitKey r) r else m) :=
      fun hh => hh
    refine hshow ?_
    by_cases hlt : v.distance_km > r.distance_km
    · rw [if_pos hlt]
      have hkeys := aset_keys m (hitKey r) r v hl
      refine ⟨?_, ?_, ?_, ?_⟩
      · intro kv hkv
        rcases mem_aset_of_distinct m _ r kv h3 hkv with hm | hnew
        · exact h1 kv hm.1
        · rw [hnew]
      · intro kv hkv x hx hkey
        rcases mem_aset_of_distinct m _ r kv h3 hkv with hm | hnew
        · rcases List.mem_append.mp hx with hxp | hxr
          · exact h2 kv hm.1 x hxp hkey
          · simp only [List.mem_singleton] at hxr
            subst hxr
            exact absurd hkey.symm hm.2
        · subst hnew
          have hkey2 : hitKey x = hitKey r := hkey
          rcases List.mem_append.mp hx with hxp | hxr
          · have hv := h2 (hitKey r, v) hvm x hxp hkey2
            exact le_trans (le_of_lt hlt) hv
          · simp only [List.mem_singleton] at hxr
            subst hxr
            exact le_refl _
      · rw [hkeys]
        exact h3
      · intro x hx
        rcases List.mem_append.mp hx with hxp | hxr
        · rcases h4 x hxp with ⟨kv, hkv, hk⟩
          have hmm : hitKey x ∈ (aset m (hitKey r) r).map Prod.fst := by
            rw [hkeys, ← hk]
            exact List.mem_map_of_mem Prod.fst hkv
          rcases List.mem_map.mp hmm with ⟨kv', hkv', hk'⟩
          exact ⟨kv', hkv', hk'⟩
        · simp only [List.mem_singleton] at hxr
          subst hxr
          have hmm : hitKey x ∈ (aset m (hitKey x) x).map Prod.fst := by
            rw [hkeys]
            exact List.mem_map_of_mem Prod.fst hvm
          rcases List.mem_map.mp hmm with ⟨kv', hkv', hk'⟩
          exact ⟨kv', hkv', hk'⟩
    · rw [if_neg hlt]
      refine ⟨h1, ?_, h3, ?_⟩
      · intro kv hkv x hx hkey
        rcases List.mem_append.mp hx with hxp | hxr
        · exact h2 kv hkv x hxp hkey
        · simp only [List.mem_singleton] at hxr
          subst hxr
          have hself := alookup_self_of_mem m kv hkv h3
          rw [← hkey] at hself
          rw [hl] at hself
          have hv2 : v = kv.2 := by injection hself
          rw [← hv2]
          exact le_of_not_lt hlt
      · intro x hx
        rcases List.mem_append.mp hx with hxp | hxr
        · exact h4 x hxp
        · simp only [List.mem_singleton] at hxr
          subst hxr
          exact ⟨(hitKey x, v), hvm, rfl⟩

/-- The invariant propagates along the whole fold. -/
theorem mapInv_fold (results : List NearbyHit) :
    ∀ (processed : List NearbyHit) (m), MapInv processed m →
      MapInv (processed ++ results) (results.foldl dedupeStep m) := by
  induction results with
  | nil =>
    intro processed m h
    simpa using h
  | cons r rs ih =>
    intro processed m h
    have h' := mapInv_step processed m r h
    have hr := ih (processed ++ [r]) (dedupeStep m r) h'
    simpa [List.append_assoc] using hr

/-!
## Stable sort lemmas
-/

/-- Insertion permutes. -/
theorem insHit_perm (a : NearbyHit) (l : List NearbyHit) :
    (insHit a l).Perm (a :: l) := by
  induction l with
  | nil => simp [insHit]
  | cons b bs ih =>
    unfold insHit
    by_cases h : a.distance_km ≤ b.distance_km
    · rw [if_pos h]
    · rw [if_neg h]
      exact (ih.cons b).trans (List.Perm.swap a b bs)

/-- The stable sort permutes its input. -/
theorem sortHits_perm (l : List NearbyHit) : (sortHits l).Perm l := by
  induction l with
  | nil => simp [sortHits]
  | cons a rest ih =>
    show (insHit a (sortHits rest)).Perm (a :: rest)
    exact (insHit_perm a (sortHits rest)).trans (ih.cons a)

/-- Insertion preserves sortedness by distance. -/
theorem insHit_sorted (a : NearbyHit) (l : List NearbyHit)
    (h : l.Pairwise (fun x y => x.distance_km ≤ y.distance_km)) :
    (insHit a l).Pairwise (fun x y => x.distance_km ≤ y.distance_km) := by
  induction l with
  | nil => simp [insHit]
  | cons b bs ih =>
    obtain ⟨hb, hbs⟩ := List.pairwise_cons.mp h
    unfold insHit
    by_cases hab : a.distance_km ≤ b.distance_km
    · rw [if_pos hab]
      refine List.pairwise_cons.mpr ⟨?_, h⟩
      intro x hx
      rcases List.mem_cons.mp hx with rfl | hx
      · exact hab
      · exact le_trans hab (hb x hx)
    · rw [if_neg hab]
      refine List.pairwise_cons.mpr ⟨?_, ih hbs⟩
      intro x hx
      have hx' := (insHit_perm a bs).mem_iff.mp hx
      rcases List.mem_cons.mp hx' with rfl | hx'
      · exact le_of_not_le hab
      · exact hb x hx'

/-- The stable sort sorts by distance. -/
theorem sortHits_sorted (l : List NearbyHit) :
    (sortHits l).Pairwise (fun x y => x.distance_km ≤ y.distance_km) := by
  induction l with
  | nil => simp [sortHits]
  | cons a rest ih =>
    show (insHit a (sortHits rest)).Pairwise _
    exact insHit_sorted a (sortHits rest) ih

/-!
## Theorems about the dedupe/sort/truncate stage
-/

/-- Claim C5: for every hit list and limit, the dedupe/sort/truncate stage
returns a list with pairwise distinct 5-decimal rounded keys, in which the
entry kept for a key realizes the minimum distance among all colliding
input hits, sorted non-decreasing by distance, of length at most the
limit. -/
theorem nearbyDedupe_invariants (results : List NearbyHit) (limit : ℕ) :
    ((nearbyDedupe results limit).Pairwise (fun a b => hitKey a ≠ hitKey b)) ∧
    (∀ o ∈ nearbyDedupe results limit, ∀ r ∈ results,
      hitKey r = hitKey o → o.distance_km ≤ r.distance_km) ∧
    ((nearbyDedupe results limit).Pairwise
      (fun a b => a.distance_km ≤ b.distance_km)) ∧
    (nearbyDedupe results limit).length ≤ limit := by
  have hinv : MapInv results (results.foldl dedupeStep []) := by
    have := mapInv_fold results [] []
      ⟨by simp, by simp, by simp, by simp⟩
    simpa using this
  obtain ⟨h1, h2, h3, h4⟩ := hinv
  have hvals_keys : ((results.foldl dedupeStep []).map Prod.snd).Pairwise
      (fun a b => hitKey a ≠ hitKey b) := by
    have hmap : (results.foldl dedupeStep []).map Prod.fst =
        (results.foldl dedupeStep []).map (fun kv => hitKey kv.2) :=
      List.map_congr_left (fun kv hkv => (h1 kv hkv).symm)
    have h3' := h3
    rw [hmap] at h3'
    rw [List.pairwise_map] at h3' ⊢
    exact h3'
  have hperm := sortHits_perm ((results.foldl dedupeStep []).map Prod.snd)
  have hsublist := List.take_sublist limit
    (sortHits ((results.foldl dedupeStep []).map Prod.snd))
  refine ⟨?_, ?_, ?_, ?_⟩
  · exact List.Pairwise.sublist hsublist
      ((hperm.pairwise_iff (fun hne => Ne.symm hne)).mpr hvals_keys)
  · intro o ho r hr hkey
    have ho' : o ∈ (results.foldl dedupeStep []).map Prod.snd :=
      hperm.mem_iff.mp (hsublist.subset ho)
    rcases List.mem_map.mp ho' with ⟨kv, hkv, hsnd⟩
    have hk1 : hitKey o = kv.1 := by rw [← hsnd]; exact h1 kv hkv
    have := h2 kv hkv r hr (hkey.trans hk1)
    rw [← hsnd]
    exact this
  · exact List.Pairwise.sublist hsublist
      (sortHits_sorted ((results.foldl dedupeStep []).map Prod.snd))
  · exact List.length_take_le limit _

/-- Witness for C5 at a concrete hit list (two hits colliding at the same
rounded key, one distinct): the truncation bound, evaluated through the
theorem. -/
theorem nearbyDedupe_invariants_witness :
    (nearbyDedupe
      [⟨pystr "A", pystr "", 1, 1, 5⟩, ⟨pystr "B", pystr "", 1, 1, 3⟩,
       ⟨pystr "C", pystr "", 2, 2, 4⟩] 2).length ≤ 2 ∧
    nearbyDedupe
      [⟨pystr "A", pystr "", 1, 1, 5⟩, ⟨pystr "B", pystr "", 1, 1, 3⟩,
       ⟨pystr "C", pystr "", 2, 2, 4⟩] 2 =
      [⟨pystr "B", pystr "", 1, 1, 3⟩, ⟨pystr "C", pystr "", 2, 2, 4⟩] :=
  ⟨(nearbyDedupe_invariants
      [⟨pystr "A", pystr "", 1, 1, 5⟩, ⟨pystr "B", pystr "", 1, 1, 3⟩,
       ⟨pystr "C", pystr "", 2, 2, 4⟩] 2).2.2.2,
   by norm_num [nearbyDedupe, dedupeStep, hitKey, pyRound, alookup, aset,
     sortHits, insHit, List.foldl]⟩

/-- Claim C6's counterexample: two hits with distinct rounded keys and
exactly equal distances.  The two input orders are permutations of each
other, yet the dedupe/sort/truncate output differs (the stable sort keeps
the dict insertion order on distance ties), so the stage is not
order-independent as a function on sequences. -/
theorem nearbyDedupe_not_perm_invariant :
    ([⟨pystr "A", pystr "", 1, 1, 7⟩, ⟨pystr "B", pystr "", 2, 2, 7⟩] :
        List NearbyHit).Perm
      [⟨pystr "B", pystr "", 2, 2, 7⟩, ⟨pystr "A", pystr "", 1, 1, 7⟩] ∧
    nearbyDedupe
        [⟨pystr "A", pystr "", 1, 1, 7⟩, ⟨pystr "B", pystr "", 2, 2, 7⟩] 5 ≠
      nearbyDedupe
        [⟨pystr "B", pystr "", 2, 2, 7⟩, ⟨pystr "A", pystr "", 1, 1, 7⟩] 5 := by
  constructor
  · exact List.Perm.swap _ _ []
  · have hAB : nearbyDedupe
        [⟨pystr "A", pystr "", 1, 1, 7⟩, ⟨pystr "B", pystr "", 2, 2, 7⟩] 5 =
        [⟨pystr "A", pystr "", 1, 1, 7⟩, ⟨pystr "B", pystr "", 2, 2, 7⟩] := by
      norm_num [nearbyDedupe, dedupeStep, hitKey, pyRound, alookup, aset,
        sortHits, insHit, List.foldl]
    have hBA : nearbyDedupe
        [⟨pystr "B", pystr "", 2, 2, 7⟩, ⟨pystr "A", pystr "", 1, 1, 7⟩] 5 =
        [⟨pystr "B", pystr "", 2, 2, 7⟩, ⟨pystr "A", pystr "", 1, 1, 7⟩] := by
      norm_num [nearbyDedupe, dedupeStep, hitKey, pyRound, alookup, aset,
        sortHits, insHit, List.foldl]
    rw [hAB, hBA]
    intro h
    injection h with hhead _
    injection hhead with hname
    exact absurd hname (by decide)

/-- Claim C6 as amended: the stage is a deterministic function of the
input sequence (not permutation-invariant: see the counterexample), and
the tie rule stands as claimed — a later hit whose rounded key collides
with an earlier-seen hit of smaller-or-equal distance is discarded
(replacement only on a strictly smaller distance, `<` not `<=`), so on
exact ties the first-seen entry is retained. -/
theorem nearbyDedupe_tie_first_seen (front post : List NearbyHit)
    (a b : NearbyHit) (limit : ℕ)
    (ha : a ∈ front) (hkey : hitKey b = hitKey a)
    (hdist : a.distance_km ≤ b.distance_km) :
    nearbyDedupe (front ++ b :: post) limit =
      nearbyDedupe (front ++ post) limit := by
  have hinv := mapInv_fold front [] []
    ⟨by simp, by simp, by simp, by simp⟩
  rw [List.nil_append] at hinv
  obtain ⟨h1, h2, h3, h4⟩ := hinv
  obtain ⟨kv, hkv, hk⟩ := h4 a ha
  have hlook : alookup (front.foldl dedupeStep []) (hitKey a) = some kv.2 := by
    have hs := alookup_self_of_mem _ kv hkv h3
    rw [hk] at hs
    exact hs
  have hda : kv.2.distance_km ≤ a.distance_km := h2 kv hkv a ha hk.symm
  have hnot : ¬ (kv.2.distance_km > b.distance_km) :=
    not_lt.mpr (le_trans hda hdist)
  have hstep : dedupeStep (front.foldl dedupeStep []) b =
      front.foldl dedupeStep [] := by
    simp only [dedupeStep, hkey, hlook, if_neg hnot]
  unfold nearbyDedupe
  rw [List.foldl_append, List.foldl_append, List.foldl_cons, hstep]

/-- Witness for the amended C6: two hits at the same rounded key with
exactly equal distances; the later one is dropped, the output equals the
output without it. -/
theorem nearbyDedupe_tie_first_seen_witness :
    nearbyDedupe
        [⟨pystr "A", pystr "", 1, 1, 4⟩, ⟨pystr "B", pystr "", 1, 1, 4⟩] 3 =
      nearbyDedupe [⟨pystr "A", pystr "", 1, 1, 4⟩] 3 :=
  nearbyDedupe_tie_first_seen [⟨pystr "A", pystr "", 1, 1, 4⟩] []
    ⟨pystr "A", pystr "", 1, 1, 4⟩ ⟨pystr "B", pystr "", 1, 1, 4⟩ 3
    (by simp) (by norm_num [hitKey, pyRound]) le_rfl

/-!
## Theorems about `nearby_search`
-/

/-- Claim C7: `nearby_search` refines the spec's variant-priority rule —
the returned list is the dedupe/sort/truncate of the hits built from the
first query variant (in the fixed order `"near lat,lon"`, `"near India"`,
`"lat lon"`, then the `"India"` fallback only when the first three raised
or returned nothing) that produced a non-empty result, each variant being
asked for `2 × limit` raw hits; earlier empty variants contribute no
hits. -/
theorem nearby_search_refines_spec
    (geocode : PyStr → ℕ → Except Unit (Option (List GeoPlace)))
    (hav : ℚ × ℚ → ℚ × ℚ → ℚ)
    (query : PyStr) (lat lon : ℚ) (limit : ℕ) :
    nearby_search geocode hav query lat lon limit =
      nearbyDedupe
        (((specFirstVariant geocode query lat lon limit).getD []).map
          (mkHit hav lat lon query)) limit := by
  unfold nearby_search specFirstVariant
  simp only [tryVariants]
  rcases hc1 : callGeocode geocode (variantQ1 query lat lon) (limit * 2)
    with _ | (_ | ⟨p1, ps1⟩) <;>
  rcases hc2 : callGeocode geocode (variantQ2 query) (limit * 2)
    with _ | (_ | ⟨p2, ps2⟩) <;>
  rcases hc3 : callGeocode geocode (variantQ3 query lat lon) (limit * 2)
    with _ | (_ | ⟨p3, ps3⟩) <;>
  rcases hc4 : callGeocode geocode (variantQ4 query) (limit * 2)
    with _ | (_ | ⟨p4, ps4⟩) <;>
  simp [pyTruthyPlaces, Option.orElse, hc1, hc2, hc3, hc4]
